import Mathlib

/-!
Verification of the SDGPSR tracking-channel core (src/src/TrackingChannel.cpp,
src/src/SDGPSR.h) against its specification.  The SignalTracker collaborator is
external (contract-only); it is represented by an abstract operations record.
Doubles are modelled by rationals; fallible accessors return Option.
-/

namespace SDGPSR

/-- Modelled from the spec: the Tracking State enumeration (declared in
SignalTracker.h, which is not under src/).  The spec requires an ordered
enumeration with at least the values lossOfLock (least) and fullTrack
(greatest); `midTrack` stands for the unspecified intermediate values. -/
inductive State where
  | lossOfLock : State
  | midTrack : State
  | fullTrack : State
deriving DecidableEq, Repr

/-- Numeric rank of a tracking state, used to order the enumeration the way
C++ orders enum values (std::max compares by value). -/
def State.toNat : State → Nat
  | State.lossOfLock => 0
  | State.midTrack => 1
  | State.fullTrack => 2

instance : LinearOrder State :=
  LinearOrder.lift' State.toNat
    (fun a b h => by cases a <;> cases b <;> first | rfl | simp [State.toNat] at h)

/-- Modelled from the spec: the four-operation contract of the external
SignalTracker collaborator (SignalTracker.h is not under src/): construction
from sample rate, PRN, Search Result and a carrier-frequency bias;
processSamples (none = the hypothesis failed and must be discarded, some =
its updated state); state; sync; and the derived navigation accessors
transmitTime, satellitePosition, latLong.  Sample rate, search result, packet
and position/coordinate values are abstract type parameters. -/
structure TrackerOps (τ Packet Fs SR V L : Type) where
  ops ::
  mk : Fs → Nat → SR → Int → τ
  processSamples : τ → Packet → Option τ
  state : τ → State
  sync : τ → τ
  transmitTime : τ → ℚ
  satellitePosition : τ → ℚ → V
  latLong : τ → ℚ → L

/-- The TrackingChannel data: its list of live SignalTrackers (in the order
the C++ std::list holds them), the packet counter and the PRN. -/
structure TrackingChannel (τ : Type) where
  signalTrackers : List τ
  inputPackets : Nat
  prn : Nat
deriving DecidableEq, Repr

variable {τ Packet Fs SR V L : Type}

/-- TrackingChannel::TrackingChannel — push one SignalTracker per ladder index
i = -4 .. 4, each built from the same fs, prn and searchResult with carrier
bias i * 500 Hz; inputPackets_ starts at 0. -/
def TrackingChannel.construct (O : TrackerOps τ Packet Fs SR V L)
    (fs : Fs) (prn : Nat) (searchResult : SR) : TrackingChannel τ :=
  { signalTrackers :=
      (List.range 9).map fun k : Nat => O.mk fs prn searchResult (((k : Int) - 4) * 500)
    inputPackets := 0
    prn := prn }

/-- The aggregate state of a list of trackers: fold of std::max starting at
lossOfLock (body of TrackingChannel::state). -/
def stateOfList (O : TrackerOps τ Packet Fs SR V L) (l : List τ) : State :=
  l.foldl (fun s t => max s (O.state t)) State.lossOfLock

/-- TrackingChannel::state — maximum tracker state, lossOfLock when empty. -/
def TrackingChannel.state (O : TrackerOps τ Packet Fs SR V L)
    (c : TrackingChannel τ) : State :=
  stateOfList O c.signalTrackers

/-- The while (size() > 1) pop_back() loop: keeps only the front element. -/
def popBackToOne : List τ → List τ
  | [] => []
  | x :: _ => [x]

/-- TrackingChannel::sync — delegate sync to every live tracker. -/
def TrackingChannel.sync (O : TrackerOps τ Packet Fs SR V L)
    (c : TrackingChannel τ) : TrackingChannel τ :=
  { c with signalTrackers := c.signalTrackers.map O.sync }

/-- The erase-while-iterating dispatch loop of TrackingChannel::processSamples:
every tracker receives the packet exactly once, in order; a tracker whose own
processSamples fails is erased, a surviving tracker is kept in its updated
state. -/
def dispatchTrackers (O : TrackerOps τ Packet Fs SR V L) (p : Packet)
    (l : List τ) : List τ :=
  l.filterMap fun t => O.processSamples t p

/-- The consensus block of TrackingChannel::processSamples: if more than one
tracker remains and the aggregate state is fullTrack, sync every tracker,
erase those not at fullTrack, then pop_back until one remains. -/
def consensusPrune (O : TrackerOps τ Packet Fs SR V L) (l : List τ) : List τ :=
  if 1 < l.length ∧ stateOfList O l = State.fullTrack then
    popBackToOne ((l.map O.sync).filter fun t => decide (O.state t = State.fullTrack))
  else l

/-- TrackingChannel::processSamples — dispatch the packet to every tracker,
erasing those whose processSamples fails; bump inputPackets_; run the
consensus block; return size() as bool. -/
def TrackingChannel.processSamples (O : TrackerOps τ Packet Fs SR V L)
    (c : TrackingChannel τ) (p : Packet) : Bool × TrackingChannel τ :=
  let newTrackers := consensusPrune O (dispatchTrackers O p c.signalTrackers)
  (decide (newTrackers.length ≠ 0),
    { c with signalTrackers := newTrackers, inputPackets := c.inputPackets + 1 })

/-- TrackingChannel::transmitTime — delegates to the front tracker; front()
on an empty std::list is undefined behaviour, embedded as none. -/
def TrackingChannel.transmitTime (O : TrackerOps τ Packet Fs SR V L)
    (c : TrackingChannel τ) : Option ℚ :=
  c.signalTrackers.head?.map O.transmitTime

/-- TrackingChannel::satellitePosition — delegates to the front tracker. -/
def TrackingChannel.satellitePosition (O : TrackerOps τ Packet Fs SR V L)
    (c : TrackingChannel τ) (timeOfWeek : ℚ) : Option V :=
  c.signalTrackers.head?.map fun t => O.satellitePosition t timeOfWeek

/-- TrackingChannel::latLong — delegates to the front tracker. -/
def TrackingChannel.latLong (O : TrackerOps τ Packet Fs SR V L)
    (c : TrackingChannel τ) (timeOfWeek : ℚ) : Option L :=
  c.signalTrackers.head?.map fun t => O.latLong t timeOfWeek

/-- SAT_FOUND_THRESH from src/src/SDGPSR.h line 17 (10.0). -/
def SAT_FOUND_THRESH : ℚ := 10

/-- Modelled from the spec: the SearchResult record (declared in
SignalTracker.h, which is not under src/): code-phase offset, carrier
frequency offset, detection confidence (peak-to-noise-floor ratio) and the
validity flag (valid only when the confidence clears SAT_FOUND_THRESH). -/
structure SearchResult where
  codeOffset : Nat
  freqOffset : Int
  confidence : ℚ
  found : Bool
deriving DecidableEq, Repr

/-- One (code-phase, frequency, magnitude) bin of the correlation surface. -/
abbrev Bin : Type := Nat × Int × ℚ

/-- Bins of one frequency row, pairing each magnitude with its code offset. -/
def binsOfRow (freq : Int) : Nat → List ℚ → List Bin
  | _, [] => []
  | i, m :: ms => ((i, freq, m) : Bin) :: binsOfRow freq (i + 1) ms

/-- All bins of a correlation surface given as frequency rows. -/
def allBins (surface : List (Int × List ℚ)) : List Bin :=
  (surface.map fun row => binsOfRow row.1 0 row.2).flatten

/-- The bin of maximum accumulated magnitude (earlier bins win ties). -/
def pickBest : List Bin → Option Bin
  | [] => none
  | c :: cs =>
    match pickBest cs with
    | none => some c
    | some b => if b.2.2 ≤ c.2.2 then some c else some b

/-- Modelled from the spec: SDGPSR::search (declared in src/src/SDGPSR.h
lines 75-80, body not under src/).  Locate the single bin of maximum
accumulated magnitude over the code-phase x frequency surface, score it by
the ratio of the peak to the surface mean, and report the satellite not
found (result flagged invalid, never an error) exactly when the confidence
is below SAT_FOUND_THRESH. -/
def search (surface : List (Int × List ℚ)) : SearchResult :=
  match pickBest (allBins surface) with
  | none => { codeOffset := 0, freqOffset := 0, confidence := 0, found := false }
  | some best =>
    let total : ℚ := (surface.map fun row => row.2.sum).sum
    let count : Nat := (surface.map fun row => row.2.length).sum
    let conf : ℚ := best.2.2 / (total / (count : ℚ))
    { codeOffset := best.1
      freqOffset := best.2.1
      confidence := conf
      found := decide (SAT_FOUND_THRESH ≤ conf) }

/-- One step of a Tracking Channel's reachable-state evolution: either a
processSamples call with some packet, or an externally triggered sync. -/
inductive Step (Packet : Type) where
  | proc : Packet → Step Packet
  | syncStep : Step Packet

/-- Run a Tracking Channel through a sequence of steps. -/
def runSteps (O : TrackerOps τ Packet Fs SR V L) :
    TrackingChannel τ → List (Step Packet) → TrackingChannel τ
  | c, [] => c
  | c, Step.proc p :: rest => runSteps O (c.processSamples O p).2 rest
  | c, Step.syncStep :: rest => runSteps O (c.sync O) rest

/-- Concrete tracker fixture used to evaluate the embedding at specific
inputs: a frequency bias, a reported state and a survive-next-packet flag. -/
structure CTracker where
  bias : Int
  st : State
  ok : Bool
deriving DecidableEq, Repr

/-- Concrete tracker operations over CTracker: freshly built trackers carry
their bias at fullTrack and survive; processSamples keeps a tracker exactly
when its ok flag is set; sync is the identity. -/
def tOps : TrackerOps CTracker Unit Unit Unit ℚ ℚ :=
  { mk := fun _ _ _ b => { bias := b, st := State.fullTrack, ok := true }
    processSamples := fun t _ => if t.ok then some t else none
    state := fun t => t.st
    sync := fun t => t
    transmitTime := fun t => (t.bias : ℚ)
    satellitePosition := fun t tow => (t.bias : ℚ) + tow
    latLong := fun t tow => (t.bias : ℚ) - tow }

/-- A concrete channel holding two fullTrack trackers that both fail on the
next packet. -/
def chFail : TrackingChannel CTracker :=
  { signalTrackers := [{ bias := 0, st := State.fullTrack, ok := false },
                       { bias := 500, st := State.fullTrack, ok := false }]
    inputPackets := 0
    prn := 1 }

/-- A concrete channel holding two fullTrack trackers that both survive the
next packet. -/
def chTwoFull : TrackingChannel CTracker :=
  { signalTrackers := [{ bias := 0, st := State.fullTrack, ok := true },
                       { bias := 500, st := State.fullTrack, ok := true }]
    inputPackets := 0
    prn := 1 }

/-- A concrete channel holding a single surviving tracker below fullTrack. -/
def chOneMid : TrackingChannel CTracker :=
  { signalTrackers := [{ bias := 0, st := State.midTrack, ok := true }]
    inputPackets := 0
    prn := 1 }

/-- A concrete channel whose hypothesis collection is empty. -/
def chEmpty : TrackingChannel CTracker :=
  { signalTrackers := []
    inputPackets := 0
    prn := 1 }

/-- A concrete one-row correlation surface whose single dominant peak clears
the acquisition threshold: peak 20 over a 20-bin row of mean 1. -/
def surfHigh : List (Int × List ℚ) :=
  [(0, [20, 0, 0, 0, 0, 0, 0, 0, 0, 0, 0, 0, 0, 0, 0, 0, 0, 0, 0, 0])]

/-! Helper lemmas about the fold of std::max. -/

theorem foldl_max_eq_init_or_mem {α : Type} [LinearOrder α] (l : List α) (a : α) :
    l.foldl max a = a ∨ l.foldl max a ∈ l := by
  induction l generalizing a with
  | nil => exact Or.inl rfl
  | cons b t ih =>
    rw [List.foldl_cons]
    rcases ih (max a b) with h | h
    · rcases max_choice a b with hm | hm
      · exact Or.inl (h.trans hm)
      · exact Or.inr (by rw [h, hm]; exact List.mem_cons_self b t)
    · exact Or.inr (List.mem_cons_of_mem b h)

theorem le_foldl_max {α : Type} [LinearOrder α] (l : List α) (a : α) :
    a ≤ l.foldl max a := by
  induction l generalizing a with
  | nil => exact le_refl a
  | cons b t ih => exact le_trans (le_max_left a b) (by rw [List.foldl_cons]; exact ih (max a b))

theorem mem_le_foldl_max {α : Type} [LinearOrder α] {x : α} :
    ∀ (l : List α) (a : α), x ∈ l → x ≤ l.foldl max a := by
  intro l
  induction l with
  | nil => intro a hx; cases hx
  | cons b t ih =>
    intro a hx
    rw [List.foldl_cons]
    rcases List.mem_cons.mp hx with rfl | h
    · exact le_trans (le_max_right a x) (le_foldl_max t (max a x))
    · exact ih (max a b) h

/-! Helper lemmas about the aggregate state. -/

theorem stateOfList_eq_foldl_map (O : TrackerOps τ Packet Fs SR V L) (l : List τ) :
    stateOfList O l = (l.map O.state).foldl max State.lossOfLock := by
  rw [stateOfList, List.foldl_map]

theorem lossOfLock_le (s : State) : State.lossOfLock ≤ s := by
  cases s <;> decide

theorem state_mem_le (O : TrackerOps τ Packet Fs SR V L) {l : List τ} {t : τ}
    (ht : t ∈ l) : O.state t ≤ stateOfList O l := by
  rw [stateOfList_eq_foldl_map]
  exact mem_le_foldl_max _ _ (List.mem_map_of_mem O.state ht)

theorem stateOfList_attained (O : TrackerOps τ Packet Fs SR V L) {l : List τ}
    (hl : l ≠ []) : ∃ t ∈ l, stateOfList O l = O.state t := by
  rcases foldl_max_eq_init_or_mem (l.map O.state) State.lossOfLock with heq | hmem
  · rcases l with _ | ⟨h0, t0⟩
    · exact absurd rfl hl
    · refine ⟨h0, List.mem_cons_self h0 t0, ?_⟩
      have h1 : O.state h0 ≤ stateOfList O (h0 :: t0) :=
        state_mem_le O (List.mem_cons_self h0 t0)
      have h2 : stateOfList O (h0 :: t0) = State.lossOfLock := by
        rw [stateOfList_eq_foldl_map]; exact heq
      exact le_antisymm (h2 ▸ lossOfLock_le (O.state h0)) (h2 ▸ h1) |>.symm ▸ rfl
  · obtain ⟨t, htm, hte⟩ := List.mem_map.mp hmem
    exact ⟨t, htm, by rw [stateOfList_eq_foldl_map, ← hte]⟩

theorem exists_fullTrack_of_state (O : TrackerOps τ Packet Fs SR V L) {l : List τ}
    (h : stateOfList O l = State.fullTrack) : ∃ t ∈ l, O.state t = State.fullTrack := by
  have hl : l ≠ [] := by
    rintro rfl
    simp [stateOfList] at h
  obtain ⟨t, htm, hte⟩ := stateOfList_attained O hl
  exact ⟨t, htm, by rw [← hte, h]⟩

/-! Helper lemmas about the pop_back-to-one loop. -/

theorem popBackToOne_sublist (l : List τ) : List.Sublist (popBackToOne l) l := by
  cases l with
  | nil => exact List.Sublist.refl []
  | cons x xs => exact (List.nil_sublist xs).cons₂ x

theorem popBackToOne_length_le_one (l : List τ) : (popBackToOne l).length ≤ 1 := by
  cases l <;> simp [popBackToOne]

theorem popBackToOne_of_ne_nil {l : List τ} (h : l ≠ []) :
    ∃ hh : l ≠ [], popBackToOne l = [l.head hh] := by
  rcases l with _ | ⟨x, xs⟩
  · exact absurd rfl h
  · exact ⟨h, rfl⟩

/-! Helper lemmas about dispatch and consensus pruning. -/

theorem dispatchTrackers_length_le (O : TrackerOps τ Packet Fs SR V L) (p : Packet)
    (l : List τ) : (dispatchTrackers O p l).length ≤ l.length :=
  List.length_filterMap_le _ _

theorem consensusPrune_length_le (O : TrackerOps τ Packet Fs SR V L) (l : List τ) :
    (consensusPrune O l).length ≤ l.length := by
  rw [consensusPrune]
  split
  · next h => exact le_trans (popBackToOne_length_le_one _) (le_of_lt h.1)
  · exact le_refl _

theorem consensusPrune_not_fired (O : TrackerOps τ Packet Fs SR V L) (l : List τ)
    (h : ¬(1 < l.length ∧ stateOfList O l = State.fullTrack)) :
    consensusPrune O l = l := by
  rw [consensusPrune, if_neg h]

theorem processSamples_snd (O : TrackerOps τ Packet Fs SR V L)
    (c : TrackingChannel τ) (p : Packet) :
    (c.processSamples O p).2.signalTrackers =
      consensusPrune O (dispatchTrackers O p c.signalTrackers) := rfl

theorem processSamples_fst (O : TrackerOps τ Packet Fs SR V L)
    (c : TrackingChannel τ) (p : Packet) :
    (c.processSamples O p).1 =
      decide ((consensusPrune O (dispatchTrackers O p c.signalTrackers)).length ≠ 0) := rfl

/-! Helper lemmas tracking the per-tracker frequency bias through the
channel operations. -/

theorem map_bias_dispatch_sublist (O : TrackerOps τ Packet Fs SR V L) (bias : τ → Int)
    (hps : ∀ t p t', O.processSamples t p = some t' → bias t' = bias t)
    (p : Packet) (l : List τ) :
    List.Sublist ((dispatchTrackers O p l).map bias) (l.map bias) := by
  induction l with
  | nil => simp [dispatchTrackers]
  | cons x xs ih =>
    simp only [dispatchTrackers, List.filterMap_cons] at ih ⊢
    cases hx : O.processSamples x p with
    | none =>
      show List.Sublist ((List.filterMap (fun t => O.processSamples t p) xs).map bias)
        ((x :: xs).map bias)
      rw [List.map_cons]
      exact ih.cons _
    | some y =>
      have hb : bias y = bias x := hps x p y hx
      show List.Sublist ((y :: List.filterMap (fun t => O.processSamples t p) xs).map bias)
        ((x :: xs).map bias)
      rw [List.map_cons, List.map_cons, hb]
      exact ih.cons₂ _

theorem map_bias_map_sync (O : TrackerOps τ Packet Fs SR V L) (bias : τ → Int)
    (hsync : ∀ t, bias (O.sync t) = bias t) (l : List τ) :
    (l.map O.sync).map bias = l.map bias := by
  induction l with
  | nil => rfl
  | cons x xs ih => simp [hsync, ih]

theorem map_bias_consensus_sublist (O : TrackerOps τ Packet Fs SR V L) (bias : τ → Int)
    (hsync : ∀ t, bias (O.sync t) = bias t) (l : List τ) :
    List.Sublist ((consensusPrune O l).map bias) (l.map bias) := by
  rw [consensusPrune]
  split
  · have h1 := (popBackToOne_sublist
      ((l.map O.sync).filter fun t => decide (O.state t = State.fullTrack))).map bias
    have h2 := (List.filter_sublist (l := l.map O.sync)
      (p := fun t => decide (O.state t = State.fullTrack))).map bias
    have h3 := map_bias_map_sync O bias hsync l
    exact (h1.trans h2).trans (h3 ▸ List.Sublist.refl _)
  · exact List.Sublist.refl _

theorem map_bias_processSamples_sublist (O : TrackerOps τ Packet Fs SR V L)
    (bias : τ → Int)
    (hps : ∀ t p t', O.processSamples t p = some t' → bias t' = bias t)
    (hsync : ∀ t, bias (O.sync t) = bias t)
    (c : TrackingChannel τ) (p : Packet) :
    List.Sublist (((c.processSamples O p).2.signalTrackers).map bias)
      (c.signalTrackers.map bias) := by
  rw [processSamples_snd]
  exact (map_bias_consensus_sublist O bias hsync _).trans
    (map_bias_dispatch_sublist O bias hps p _)

theorem map_bias_runSteps_sublist (O : TrackerOps τ Packet Fs SR V L) (bias : τ → Int)
    (hps : ∀ t p t', O.processSamples t p = some t' → bias t' = bias t)
    (hsync : ∀ t, bias (O.sync t) = bias t) :
    ∀ (steps : List (Step Packet)) (c : TrackingChannel τ),
      List.Sublist (((runSteps O c steps).signalTrackers).map bias)
        (c.signalTrackers.map bias) := by
  intro steps
  induction steps with
  | nil => intro c; exact List.Sublist.refl _
  | cons s rest ih =>
    intro c
    cases s with
    | proc p =>
      exact (ih _).trans (map_bias_processSamples_sublist O bias hps hsync c p)
    | syncStep =>
      have h3 : ((c.sync O).signalTrackers).map bias = c.signalTrackers.map bias :=
        map_bias_map_sync O bias hsync c.signalTrackers
      exact (ih _).trans (h3 ▸ List.Sublist.refl _)

theorem construct_map_bias (O : TrackerOps τ Packet Fs SR V L) (bias : τ → Int)
    (hmk : ∀ fs prn sr b, bias (O.mk fs prn sr b) = b)
    (fs : Fs) (prn : Nat) (sr : SR) :
    ((TrackingChannel.construct O fs prn sr).signalTrackers).map bias =
      [-2000, -1500, -1000, -500, 0, 500, 1000, 1500, 2000] := by
  simp only [TrackingChannel.construct, List.map_map]
  have h : (bias ∘ fun k : Nat => O.mk fs prn sr (((k : Int) - 4) * 500)) =
      fun k : Nat => ((k : Int) - 4) * 500 :=
    funext fun k => hmk fs prn sr (((k : Int) - 4) * 500)
  rw [h]
  rfl

/-! Helper lemmas about the correlation-surface peak search. -/

theorem pickBest_cons_none {x : Bin} {xs : List Bin} (h : pickBest xs = none) :
    pickBest (x :: xs) = some x := by
  unfold pickBest
  rw [h]

theorem pickBest_cons_some {x : Bin} {xs : List Bin} {b : Bin}
    (h : pickBest xs = some b) :
    pickBest (x :: xs) = if b.2.2 ≤ x.2.2 then some x else some b := by
  unfold pickBest
  rw [h]

theorem pickBest_isSome (x : Bin) (xs : List Bin) : pickBest (x :: xs) ≠ none := by
  cases hpx : pickBest xs with
  | none => rw [pickBest_cons_none hpx]; simp
  | some b => rw [pickBest_cons_some hpx]; split <;> simp

theorem pickBest_mem {l : List Bin} : ∀ {b : Bin}, pickBest l = some b → b ∈ l := by
  induction l with
  | nil => intro b h; simp [pickBest] at h
  | cons x xs ih =>
    intro b h
    cases hpx : pickBest xs with
    | none =>
      rw [pickBest_cons_none hpx] at h
      exact (Option.some.inj h) ▸ List.mem_cons_self x xs
    | some c =>
      rw [pickBest_cons_some hpx] at h
      by_cases hc : c.2.2 ≤ x.2.2
      · rw [if_pos hc] at h
        exact (Option.some.inj h) ▸ List.mem_cons_self x xs
      · rw [if_neg hc] at h
        exact List.mem_cons_of_mem x ((Option.some.inj h) ▸ ih hpx)

theorem pickBest_is_max {l : List Bin} : ∀ {b : Bin}, pickBest l = some b →
    ∀ c ∈ l, c.2.2 ≤ b.2.2 := by
  induction l with
  | nil => intro b h; simp [pickBest] at h
  | cons x xs ih =>
    intro b h c hc
    cases hpx : pickBest xs with
    | none =>
      rw [pickBest_cons_none hpx] at h
      have hxs : xs = [] := by
        cases xs with
        | nil => rfl
        | cons z zs => exact absurd hpx (pickBest_isSome z zs)
      subst hxs
      have hb : x = b := Option.some.inj h
      rcases List.mem_cons.mp hc with rfl | hcx
      · exact hb ▸ le_refl _
      · cases hcx
    | some d =>
      rw [pickBest_cons_some hpx] at h
      rcases List.mem_cons.mp hc with rfl | hcx
      · by_cases hd : d.2.2 ≤ c.2.2
        · rw [if_pos hd] at h
          exact (Option.some.inj h) ▸ le_refl _
        · rw [if_neg hd] at h
          exact le_of_lt ((Option.some.inj h) ▸ not_le.mp hd)
      · have hcd : c.2.2 ≤ d.2.2 := ih hpx c hcx
        by_cases hdx : d.2.2 ≤ x.2.2
        · rw [if_pos hdx] at h
          exact le_trans hcd (hdx.trans ((Option.some.inj h) ▸ le_refl _))
        · rw [if_neg hdx] at h
          exact (Option.some.inj h) ▸ hcd

theorem mem_binsOfRow {fr : Int} {m : ℚ} : ∀ {ms : List ℚ} (i0 : Nat), m ∈ ms →
    ∃ i, ((i, fr, m) : Bin) ∈ binsOfRow fr i0 ms := by
  intro ms
  induction ms with
  | nil => intro i0 h; cases h
  | cons x xs ih =>
    intro i0 h
    rcases List.mem_cons.mp h with rfl | hx
    · exact ⟨i0, List.mem_cons_self _ _⟩
    · obtain ⟨i, hi⟩ := ih (i0 + 1) hx
      exact ⟨i, List.mem_cons_of_mem _ hi⟩

theorem mem_allBins {surface : List (Int × List ℚ)} {row : Int × List ℚ} {m : ℚ}
    (hrow : row ∈ surface) (hm : m ∈ row.2) :
    ∃ i, ((i, row.1, m) : Bin) ∈ allBins surface := by
  obtain ⟨i, hi⟩ := mem_binsOfRow 0 hm
  refine ⟨i, ?_⟩
  rw [allBins]
  exact List.mem_flatten.mpr ⟨binsOfRow row.1 0 row.2, List.mem_map_of_mem _ hrow, hi⟩

/-! Claim theorems. -/

/-- Claim C1, counterexample: a Tracking Channel whose aggregate state is
fullTrack while it holds 2 live hypotheses can end the next processSamples
call with 0 hypotheses (both trackers fail during dispatch), refuting
"exactly 1 hypothesis (never 0)". -/
theorem claim_C1_counterexample :
    TrackingChannel.state tOps chFail = State.fullTrack ∧
    2 ≤ chFail.signalTrackers.length ∧
    (TrackingChannel.processSamples tOps chFail ()).2.signalTrackers.length ≠ 1 := by
  decide

/-- Claim C1, amended: if after dispatching the packet more than one
hypothesis survives, the aggregate state of the survivors equals fullTrack,
and sync preserves every tracker's reported state, then the processSamples
call ends with exactly one hypothesis. -/
theorem claim_C1_amended (O : TrackerOps τ Packet Fs SR V L)
    (c : TrackingChannel τ) (p : Packet)
    (hlen : 1 < (dispatchTrackers O p c.signalTrackers).length)
    (hstate : stateOfList O (dispatchTrackers O p c.signalTrackers) = State.fullTrack)
    (hsync : ∀ t, O.state (O.sync t) = O.state t) :
    (c.processSamples O p).2.signalTrackers.length = 1 := by
  rw [processSamples_snd, consensusPrune, if_pos ⟨hlen, hstate⟩]
  obtain ⟨t, htm, hts⟩ := exists_fullTrack_of_state O hstate
  have hmem : O.sync t ∈ (dispatchTrackers O p c.signalTrackers).map O.sync :=
    List.mem_map_of_mem O.sync htm
  have hfull : O.sync t ∈ ((dispatchTrackers O p c.signalTrackers).map O.sync).filter
      (fun t => decide (O.state t = State.fullTrack)) :=
    List.mem_filter.mpr ⟨hmem, by simp [hsync t, hts]⟩
  obtain ⟨hh, heq⟩ := popBackToOne_of_ne_nil (List.ne_nil_of_mem hfull)
  rw [heq]
  rfl

/-- Claim C1, witness: on a concrete channel with two surviving fullTrack
trackers the amended statement applies and leaves exactly one hypothesis. -/
theorem claim_C1_witness :
    1 < (dispatchTrackers tOps () chTwoFull.signalTrackers).length ∧
    stateOfList tOps (dispatchTrackers tOps () chTwoFull.signalTrackers) = State.fullTrack ∧
    (TrackingChannel.processSamples tOps chTwoFull ()).2.signalTrackers.length = 1 :=
  ⟨by decide, by decide,
    claim_C1_amended tOps chTwoFull () (by decide) (by decide) (fun _ => rfl)⟩

/-- Claim C2, counterexample: on a channel with two fullTrack trackers that
both survive dispatch, processSamples removes a hypothesis whose own
processSamples did not report failure (consensus pruning removed it), so the
removed set is not exactly the failure set. -/
theorem claim_C2_counterexample :
    (∀ t ∈ chTwoFull.signalTrackers, tOps.processSamples t () = some t) ∧
    (TrackingChannel.processSamples tOps chTwoFull ()).2.signalTrackers ≠
      dispatchTrackers tOps () chTwoFull.signalTrackers := by
  decide

/-- Claim C2, amended: processSamples dispatches the packet to every live
hypothesis exactly once (each survivor is the updated image of its
predecessor, in order); when the consensus branch does not fire it removes
exactly the hypotheses whose own processSamples failed; and it returns true
iff at least one hypothesis remains afterward. -/
theorem claim_C2_amended (O : TrackerOps τ Packet Fs SR V L)
    (c : TrackingChannel τ) (p : Packet) (s : List τ)
    (hs : s = dispatchTrackers O p c.signalTrackers) :
    ((c.processSamples O p).1 = true ↔ (c.processSamples O p).2.signalTrackers ≠ []) ∧
    (¬(1 < s.length ∧ stateOfList O s = State.fullTrack) →
      (c.processSamples O p).2.signalTrackers = s ∧
      ((c.processSamples O p).1 = true ↔ s ≠ [])) := by
  subst hs
  constructor
  · rw [processSamples_fst, processSamples_snd]
    simp [List.length_eq_zero]
  · intro h
    constructor
    · rw [processSamples_snd, consensusPrune_not_fired O _ h]
    · rw [processSamples_fst, consensusPrune_not_fired O _ h]
      simp [List.length_eq_zero]

/-- Claim C2, witness: on a concrete one-tracker channel the consensus branch
does not fire, the survivor set is exactly the non-failing set, and the call
returns true. -/
theorem claim_C2_witness :
    ((TrackingChannel.processSamples tOps chOneMid ()).1 = true ↔
      (TrackingChannel.processSamples tOps chOneMid ()).2.signalTrackers ≠ []) ∧
    ((TrackingChannel.processSamples tOps chOneMid ()).2.signalTrackers =
        dispatchTrackers tOps () chOneMid.signalTrackers ∧
      ((TrackingChannel.processSamples tOps chOneMid ()).1 = true ↔
        dispatchTrackers tOps () chOneMid.signalTrackers ≠ [])) :=
  ⟨(claim_C2_amended tOps chOneMid () _ rfl).1,
   (claim_C2_amended tOps chOneMid () _ rfl).2 (by decide)⟩

/-- Claim C3: a channel's state() is the maximum of its live hypotheses'
states under the enumeration order — lossOfLock when the collection is empty,
an upper bound of every member's state, and attained by some member when the
collection is non-empty. -/
theorem claim_C3 (O : TrackerOps τ Packet Fs SR V L) (c : TrackingChannel τ) :
    (c.signalTrackers = [] → c.state O = State.lossOfLock) ∧
    (∀ t ∈ c.signalTrackers, O.state t ≤ c.state O) ∧
    (c.signalTrackers ≠ [] → ∃ t ∈ c.signalTrackers, c.state O = O.state t) := by
  refine ⟨?_, ?_, ?_⟩
  · intro h
    rw [TrackingChannel.state, h]
    rfl
  · intro t ht
    exact state_mem_le O ht
  · intro h
    exact stateOfList_attained O h

/-- Claim C3, witness: the empty channel reports lossOfLock and a concrete
non-empty channel's state is attained by one of its members. -/
theorem claim_C3_witness :
    TrackingChannel.state tOps chEmpty = State.lossOfLock ∧
    (∃ t ∈ chTwoFull.signalTrackers,
      TrackingChannel.state tOps chTwoFull = tOps.state t) :=
  ⟨(claim_C3 tOps chEmpty).1 rfl, (claim_C3 tOps chTwoFull).2.2 (by decide)⟩

/-- Claim C4: processSamples never increases the size of the live-hypothesis
collection, and sync (the only other mutating operation) preserves it, so the
size is non-increasing over any sequence of calls after construction. -/
theorem claim_C4 (O : TrackerOps τ Packet Fs SR V L) (c : TrackingChannel τ)
    (p : Packet) :
    (c.processSamples O p).2.signalTrackers.length ≤ c.signalTrackers.length ∧
    (c.sync O).signalTrackers.length = c.signalTrackers.length := by
  constructor
  · rw [processSamples_snd]
    exact le_trans (consensusPrune_length_le O _) (dispatchTrackers_length_le O p _)
  · simp [TrackingChannel.sync]

/-- Claim C5: construction instantiates exactly 9 Tracking Hypotheses, each
seeded with the same sample rate, PRN and Search Result, with carrier biases
-2000, -1500, -1000, -500, 0, 500, 1000, 1500, 2000 Hz, and initialises the
packet counter to 0 and the PRN field. -/
theorem claim_C5 (O : TrackerOps τ Packet Fs SR V L) (fs : Fs) (prn : Nat)
    (sr : SR) :
    (TrackingChannel.construct O fs prn sr).signalTrackers =
      [O.mk fs prn sr (-2000), O.mk fs prn sr (-1500), O.mk fs prn sr (-1000),
       O.mk fs prn sr (-500), O.mk fs prn sr 0, O.mk fs prn sr 500,
       O.mk fs prn sr 1000, O.mk fs prn sr 1500, O.mk fs prn sr 2000] ∧
    (TrackingChannel.construct O fs prn sr).signalTrackers.length = 9 ∧
    (TrackingChannel.construct O fs prn sr).inputPackets = 0 ∧
    (TrackingChannel.construct O fs prn sr).prn = prn :=
  ⟨rfl, rfl, rfl, rfl⟩

/-- Claim C6: when consensus pruning still has more than one full-lock
hypothesis after the fullTrack filter, exactly the first of those survivors
(in iteration order) is kept as the channel's sole member. -/
theorem claim_C6 (O : TrackerOps τ Packet Fs SR V L) (c : TrackingChannel τ)
    (p : Packet) (f : List τ)
    (hlen : 1 < (dispatchTrackers O p c.signalTrackers).length)
    (hstate : stateOfList O (dispatchTrackers O p c.signalTrackers) = State.fullTrack)
    (hf : f = ((dispatchTrackers O p c.signalTrackers).map O.sync).filter
        (fun t => decide (O.state t = State.fullTrack)))
    (hmany : 1 < f.length) :
    ∃ hne : f ≠ [], (c.processSamples O p).2.signalTrackers = [f.head hne] := by
  have hne : f ≠ [] := by
    intro h
    rw [h] at hmany
    simp at hmany
  refine ⟨hne, ?_⟩
  rw [processSamples_snd, consensusPrune, if_pos ⟨hlen, hstate⟩, ← hf]
  obtain ⟨hh, heq⟩ := popBackToOne_of_ne_nil hne
  rw [heq]

/-- Claim C6, witness: on a concrete channel with two full-lock survivors the
call keeps exactly the first of them. -/
theorem claim_C6_witness :
    ∃ hne : (((dispatchTrackers tOps () chTwoFull.signalTrackers).map tOps.sync).filter
        (fun t => decide (tOps.state t = State.fullTrack))) ≠ [],
      (TrackingChannel.processSamples tOps chTwoFull ()).2.signalTrackers =
        [(((dispatchTrackers tOps () chTwoFull.signalTrackers).map tOps.sync).filter
            (fun t => decide (tOps.state t = State.fullTrack))).head hne] :=
  claim_C6 tOps chTwoFull () _ (by decide) (by decide) rfl (by decide)

/-- Claim C7, counterexample: transmitTime() on a channel holding zero
hypotheses yields no value at all (the C++ calls front() on an empty
std::list, undefined behaviour; the embedding returns none), so it does not
return a defined fallback value. -/
theorem claim_C7_counterexample :
    ¬∃ v : ℚ, TrackingChannel.transmitTime tOps chEmpty = some v := by
  rintro ⟨v, hv⟩
  simp [TrackingChannel.transmitTime, chEmpty] at hv

/-- Claim C7, amended: transmitTime on the empty-collection state has no
defined result (none in the embedding; the C++ front() on an empty list is
undefined behaviour rather than a safe fallback), and with at least one
hypothesis it returns the first hypothesis's transmit time. -/
theorem claim_C7_amended (O : TrackerOps τ Packet Fs SR V L)
    (c : TrackingChannel τ) :
    (c.signalTrackers = [] → c.transmitTime O = none) ∧
    (∀ t ts, c.signalTrackers = t :: ts → c.transmitTime O = some (O.transmitTime t)) := by
  constructor
  · intro h
    rw [TrackingChannel.transmitTime, h]
    rfl
  · intro t ts h
    rw [TrackingChannel.transmitTime, h]
    rfl

/-- Claim C7, witness: evaluated on a concrete empty channel and on a
concrete two-tracker channel. -/
theorem claim_C7_witness :
    TrackingChannel.transmitTime tOps chEmpty = none ∧
    TrackingChannel.transmitTime tOps chTwoFull =
      some (tOps.transmitTime { bias := 0, st := State.fullTrack, ok := true }) :=
  ⟨(claim_C7_amended tOps chEmpty).1 rfl,
   (claim_C7_amended tOps chTwoFull).2 _ _ rfl⟩

/-- Claim C9: sync delegates to each hypothesis in place — it preserves the
collection's size and order, changes no other channel field, and any
per-tracker identity that sync preserves is preserved positionally across
the whole collection. -/
theorem claim_C9 (O : TrackerOps τ Packet Fs SR V L) (c : TrackingChannel τ) :
    (c.sync O).signalTrackers = c.signalTrackers.map O.sync ∧
    (c.sync O).signalTrackers.length = c.signalTrackers.length ∧
    (c.sync O).inputPackets = c.inputPackets ∧
    (c.sync O).prn = c.prn ∧
    (∀ ident : τ → Int, (∀ t, ident (O.sync t) = ident t) →
      (c.sync O).signalTrackers.map ident = c.signalTrackers.map ident) := by
  refine ⟨rfl, by simp [TrackingChannel.sync], rfl, rfl, ?_⟩
  intro ident hid
  show (c.signalTrackers.map O.sync).map ident = c.signalTrackers.map ident
  exact map_bias_map_sync O ident hid c.signalTrackers

/-- Claim C9, witness: the concrete sync-preserved identity (the frequency
bias) is unchanged across a concrete channel's sync. -/
theorem claim_C9_witness :
    (chTwoFull.sync tOps).signalTrackers.map CTracker.bias =
      chTwoFull.signalTrackers.map CTracker.bias :=
  (claim_C9 tOps chTwoFull).2.2.2.2 CTracker.bias (fun _ => rfl)

/-- Claim C8: search reports the satellite not found (a result flagged
invalid, never an error — search is a total function) exactly when the
computed confidence is below SAT_FOUND_THRESH, whose value is 10; a
confidence at or above the threshold yields a found result whose
code-phase/frequency bin attains the maximum accumulated magnitude. -/
theorem claim_C8 (surface : List (Int × List ℚ)) :
    SAT_FOUND_THRESH = 10 ∧
    ((search surface).found = false ↔ (search surface).confidence < SAT_FOUND_THRESH) ∧
    ((search surface).found = true →
      ∃ pk : ℚ, pickBest (allBins surface) =
          some ((search surface).codeOffset, (search surface).freqOffset, pk) ∧
        ∀ row ∈ surface, ∀ m ∈ row.2, m ≤ pk) := by
  refine ⟨rfl, ?_, ?_⟩
  · cases hb : pickBest (allBins surface) with
    | none =>
      simp only [search, hb]
      norm_num [SAT_FOUND_THRESH]
    | some best =>
      simp only [search, hb]
      simp [decide_eq_false_iff_not, not_le]
  · cases hb : pickBest (allBins surface) with
    | none => simp [search, hb]
    | some best =>
      intro hf
      refine ⟨best.2.2, ?_, ?_⟩
      · simp [search, hb]
      · intro row hrow m hm
        obtain ⟨i, hi⟩ := mem_allBins hrow hm
        exact pickBest_is_max hb _ hi

/-- Claim C8, witness: a concrete surface whose dominant peak (20 over a
20-bin row of mean 1) clears the threshold is reported found with a
maximizing bin. -/
theorem claim_C8_witness :
    (search surfHigh).found = true ∧
    (∃ pk : ℚ, pickBest (allBins surfHigh) =
        some ((search surfHigh).codeOffset, (search surfHigh).freqOffset, pk) ∧
      ∀ row ∈ surfHigh, ∀ m ∈ row.2, m ≤ pk) :=
  have hf : (search surfHigh).found = true := by
    norm_num [search, surfHigh, allBins, binsOfRow, pickBest, SAT_FOUND_THRESH]
  ⟨hf, (claim_C8 surfHigh).2.2 hf⟩

/-- Claim C10: in every channel state reachable from construction by
processSamples and sync steps, the live hypotheses stay in the strictly
ascending frequency-bias order of construction (removals never reorder), so
transmitTime, satellitePosition and latLong always delegate to the surviving
hypothesis of minimal (most negative) bias.  The bias hypotheses state that a
tracker's construction bias is immutable: preserved by processSamples
survival and by sync. -/
theorem claim_C10 (O : TrackerOps τ Packet Fs SR V L) (bias : τ → Int)
    (hmk : ∀ fs prn sr b, bias (O.mk fs prn sr b) = b)
    (hps : ∀ t p t', O.processSamples t p = some t' → bias t' = bias t)
    (hsync : ∀ t, bias (O.sync t) = bias t)
    (fs : Fs) (prn : Nat) (sr : SR) (steps : List (Step Packet))
    (c : TrackingChannel τ)
    (hc : c = runSteps O (TrackingChannel.construct O fs prn sr) steps) :
    c.signalTrackers.Pairwise (fun a b => bias a < bias b) ∧
    ∀ hne : c.signalTrackers ≠ [],
      (∀ u ∈ c.signalTrackers, bias (c.signalTrackers.head hne) ≤ bias u) ∧
      c.transmitTime O = some (O.transmitTime (c.signalTrackers.head hne)) ∧
      (∀ tow, c.satellitePosition O tow =
        some (O.satellitePosition (c.signalTrackers.head hne) tow)) ∧
      (∀ tow, c.latLong O tow = some (O.latLong (c.signalTrackers.head hne) tow)) := by
  have hsub := map_bias_runSteps_sublist O bias hps hsync steps
    (TrackingChannel.construct O fs prn sr)
  rw [construct_map_bias O bias hmk fs prn sr] at hsub
  rw [← hc] at hsub
  have hpw0 : List.Pairwise (fun a b : Int => a < b)
      [-2000, -1500, -1000, -500, 0, 500, 1000, 1500, 2000] := by decide
  have hpw : c.signalTrackers.Pairwise (fun a b => bias a < bias b) :=
    List.pairwise_map.mp (hpw0.sublist hsub)
  refine ⟨hpw, ?_⟩
  intro hne
  have hcons := List.head_cons_tail c.signalTrackers hne
  have hmin : ∀ u ∈ c.signalTrackers, bias (c.signalTrackers.head hne) ≤ bias u := by
    intro u hu
    rw [← hcons] at hu
    rcases List.mem_cons.mp hu with rfl | hut
    · exact le_refl _
    · have hpc : List.Pairwise (fun a b => bias a < bias b)
          (c.signalTrackers.head hne :: c.signalTrackers.tail) := hcons.symm ▸ hpw
      exact le_of_lt (List.rel_of_pairwise_cons hpc hut)
  have hhead : c.signalTrackers.head? = some (c.signalTrackers.head hne) :=
    List.head?_eq_head hne
  refine ⟨hmin, ?_, ?_, ?_⟩
  · rw [TrackingChannel.transmitTime, hhead]
    rfl
  · intro tow
    rw [TrackingChannel.satellitePosition, hhead]
    rfl
  · intro tow
    rw [TrackingChannel.latLong, hhead]
    rfl

/-- Claim C10, witness: a concrete channel constructed with the fixture
tracker operations and run through one processSamples step keeps its
hypotheses in ascending bias order and delegates the navigation accessors to
the minimal-bias survivor. -/
theorem claim_C10_witness :
    (runSteps tOps (TrackingChannel.construct tOps () 1 ()) [Step.proc ()]).signalTrackers.Pairwise
      (fun a b => CTracker.bias a < CTracker.bias b) ∧
    ∀ hne : (runSteps tOps (TrackingChannel.construct tOps () 1 ())
        [Step.proc ()]).signalTrackers ≠ [],
      (∀ u ∈ (runSteps tOps (TrackingChannel.construct tOps () 1 ())
          [Step.proc ()]).signalTrackers,
        CTracker.bias ((runSteps tOps (TrackingChannel.construct tOps () 1 ())
          [Step.proc ()]).signalTrackers.head hne) ≤ CTracker.bias u) ∧
      (runSteps tOps (TrackingChannel.construct tOps () 1 ())
          [Step.proc ()]).transmitTime tOps =
        some (tOps.transmitTime ((runSteps tOps (TrackingChannel.construct tOps () 1 ())
          [Step.proc ()]).signalTrackers.head hne)) ∧
      (∀ tow, (runSteps tOps (TrackingChannel.construct tOps () 1 ())
          [Step.proc ()]).satellitePosition tOps tow =
        some (tOps.satellitePosition ((runSteps tOps (TrackingChannel.construct tOps () 1 ())
          [Step.proc ()]).signalTrackers.head hne) tow)) ∧
      (∀ tow, (runSteps tOps (TrackingChannel.construct tOps () 1 ())
          [Step.proc ()]).latLong tOps tow =
        some (tOps.latLong ((runSteps tOps (TrackingChannel.construct tOps () 1 ())
          [Step.proc ()]).signalTrackers.head hne) tow)) :=
  claim_C10 tOps CTracker.bias (fun _ _ _ _ => rfl)
    (fun t p t' h => by
      by_cases hok : t.ok
      · simp [tOps, hok] at h
        rw [← h]
      · simp [tOps, hok] at h)
    (fun _ => rfl) () 1 () [Step.proc ()] _ rfl

end SDGPSR
